import Mathlib

/-!
Verification of the sports-catalog aggregation core: name normalization,
keyword classification of competition levels, multi-source lookup indices,
entity matching, score fusion with tiering, and event-id merging.

The Lean definitions below shallowly embed the Python sources
(`build_events.py`, `enrich_leagues.py`, `fetch_popularity.py`).
Python str values are embedded as Lean `String` (a list of characters);
Python numbers (int and float) as `ℚ`, with real-log computations in `ℝ`;
Python `int(...)` truncation toward zero as `ratTrunc` / `realTrunc`;
JSON objects as association lists.
-/

namespace SportsDB

/-- ASCII lower-casing of one character, as Python `str.lower` acts on the
ASCII range (all names involved in the claims are ASCII or already
lower-case). -/
def lowerChar (c : Char) : Char :=
  if 65 ≤ c.toNat ∧ c.toNat ≤ 90 then Char.ofNat (c.toNat + 32) else c

/-- Python `s.lower()`. -/
def pyLower (s : String) : String := ⟨s.data.map lowerChar⟩

/-- Python `s.replace(a, b)` for one-character patterns (the only use in the
sources: replacing "-" and "_" by a space). -/
def pyReplaceChar (s : String) (a b : Char) : String :=
  ⟨s.data.map (fun c => if c = a then b else c)⟩

/-- Python whitespace test for `str.strip()`. -/
def isSpaceChar (c : Char) : Bool :=
  (c == ' ') || (c == '\t') || (c == '\n') || (c == '\r')

/-- Python `s.strip()`: remove leading and trailing whitespace. -/
def pyStrip (s : String) : String :=
  ⟨((s.data.dropWhile isSpaceChar).reverse.dropWhile isSpaceChar).reverse⟩

/-- Python `sub in hay`: substring containment. -/
def containsChars (hay sub : List Char) : Bool :=
  (List.range (hay.length + 1)).any (fun i => List.isPrefixOf sub (hay.drop i))

/-- Python `sub in hay` on strings. -/
def containsStr (hay sub : String) : Bool := containsChars hay.data sub.data

/-- Python `s.endswith(t)`. -/
def pyEndsWith (s t : String) : Bool := List.isPrefixOf t.data.reverse s.data.reverse

/-- Python `s[:-n]` for `0 < n ≤ len s`: drop the last `n` characters. -/
def pyDropRight (s : String) (n : Nat) : String := ⟨s.data.take (s.data.length - n)⟩

/-- An apostrophe character, used inside several competition-name constants. -/
def apoStr : String := ⟨[Char.ofNat 39]⟩

namespace BuildEvents

/-- `build_events.py` WORLD_COMPETITIONS: known World-class competition name
fragments. The Python source stores them in a set and only tests membership
by substring scan, so a list with the same elements is an equivalent model. -/
def WORLD_COMPETITIONS : List String :=
  ["formula 1", "formula e", "moto gp", "motogp",
   "tour de france", "giro d" ++ apoStr ++ "italia", "vuelta a españa",
   "grand slam", "atp finals", "wta finals", "atp tour", "wta tour",
   "super bowl", "nba", "nhl",
   "24 hours of le mans", "indycar", "nascar",
   "commonwealth games", "pga tour", "lpga tour", "liv golf",
   "sailgp", "the boat race"]

/-- `build_events.py` CONTINENTAL_COMPETITIONS. -/
def CONTINENTAL_COMPETITIONS : List String :=
  ["euroleague", "eurocup", "uefa europa league", "uefa europa conference league",
   "afc", "caf", "concacaf", "conmebol", "ofc",
   "fih hockey men" ++ apoStr ++ "s pro league",
   "fih hockey women" ++ apoStr ++ "s pro league",
   "mediterranean games", "central american", "south american games"]

/-- Generic World-indicating keywords (line 60 of `build_events.py`). -/
def worldKeywords : List String := ["world", "mondial", "olympics", "olympic", "global"]

/-- Generic Continental-indicating keywords (line 62). -/
def continentalKeywords : List String :=
  ["european", "euro ", "asian", "african", "copa america", "champions league", "continental"]

/-- Generic National-indicating keywords (line 64). -/
def nationalKeywords : List String := ["national", "championship", "cup", "league"]

/-- `get_competition_level` from `build_events.py`, taking the event's
`name` and `competition` fields directly. Levels: World=1, Continental=2,
National=3, Other=4 (the COMPETITION_LEVELS table). -/
def get_competition_level (name competition : String) : Nat :=
  let combined := pyLower name ++ " " ++ pyLower competition
  if WORLD_COMPETITIONS.any (fun c => containsStr combined c) then 1
  else if CONTINENTAL_COMPETITIONS.any (fun c => containsStr combined c) then 2
  else if worldKeywords.any (fun c => containsStr combined c) then 1
  else if continentalKeywords.any (fun c => containsStr combined c) then 2
  else if nationalKeywords.any (fun c => containsStr combined c) then 3
  else 4

/-- Spec-side restatement of the classifier, written from the spec's words:
a priority cascade where each stage asks whether SOME configured fragment is
a substring (infix) of the lower-cased combined text, in the order
known-World, known-Continental, generic World, generic Continental,
generic National, default Other. Used to compare against
`get_competition_level`. -/
def specLevel (name competition : String) : Nat :=
  let combined := pyLower name ++ " " ++ pyLower competition
  if ∃ c ∈ WORLD_COMPETITIONS, c.data <:+: combined.data then 1
  else if ∃ c ∈ CONTINENTAL_COMPETITIONS, c.data <:+: combined.data then 2
  else if ∃ c ∈ worldKeywords, c.data <:+: combined.data then 1
  else if ∃ c ∈ continentalKeywords, c.data <:+: combined.data then 2
  else if ∃ c ∈ nationalKeywords, c.data <:+: combined.data then 3
  else 4

/-- Python `max(ids, default=0)`: the maximum of a list, or 0 when empty
(line 137 of `build_events.py`). -/
def pyMaxDefault0 (l : List ℤ) : ℤ :=
  match l with
  | [] => 0
  | x :: xs => xs.foldl max x

/-- The surrogate ids allocated for the `k` UFC records (lines 137–171 of
`build_events.py`): `next_id` starts at `max(existing ids, default=0) + 1000`
and is incremented by 1 after each appended record. -/
def surrogateIds (existingIds : List ℤ) (k : ℕ) : List ℤ :=
  (List.range k).map (fun i : ℕ => pyMaxDefault0 existingIds + 1000 + (i : ℤ))

/-- The id column of the merged event list before the final date sort:
the ids of the AllSportDB-derived events followed by the UFC surrogate ids.
(The final sort at line 174 only permutes the list, so id-uniqueness of this
list is id-uniqueness of the output.) -/
def mergedEventIds (existingIds : List ℤ) (k : ℕ) : List ℤ :=
  existingIds ++ surrogateIds existingIds k

end BuildEvents

/-- Python `int(x)` on a rational-valued float: truncation toward zero. -/
def ratTrunc (x : ℚ) : ℤ := if 0 ≤ x then ⌊x⌋ else ⌈x⌉

/-- Python `int(x)` on a real-valued float: truncation toward zero. -/
noncomputable def realTrunc (x : ℝ) : ℤ := if 0 ≤ x then ⌊x⌋ else ⌈x⌉

/-- A JSON scalar value as stored in the signal-source records. -/
inductive JVal where
  | num (q : ℚ)
  | str (s : String)
deriving DecidableEq

/-- A JSON object (a Python dict): an association list of fields. -/
abbrev JRec := List (String × JVal)

namespace EnrichLeagues

/-- `normalize_league_name` from `enrich_leagues.py`:
`name.lower().replace("-", " ").replace("_", " ").strip()`. -/
def normalize_league_name (name : String) : String :=
  pyStrip (pyReplaceChar (pyReplaceChar (pyLower name) '-' ' ') '_' ' ')

/-- `calculate_tier` from `enrich_leagues.py` (the fused-score ladder). -/
def calculate_tier (score : ℤ) : String :=
  if 75 ≤ score then "A"
  else if 50 ≤ score then "B"
  else if 25 ≤ score then "C"
  else "D"

/-- `normalize_log_scale` from `enrich_leagues.py`:
`0` when `value <= 0 or max_value <= 0`, otherwise
`int(log10(value+1) / log10(max_value+1) * 100)`. -/
noncomputable def normalize_log_scale (value max_value : ℚ) : ℤ :=
  if value ≤ 0 ∨ max_value ≤ 0 then 0
  else realTrunc (Real.logb 10 ((value : ℝ) + 1) / Real.logb 10 ((max_value : ℝ) + 1) * 100)

/-- The linear normalization inlined at line 146 of `enrich_leagues.py`:
`int(trends_index / trends_max * 100) if trends_max > 0 else 0`. -/
def normalize_linear (value max_value : ℚ) : ℤ :=
  if 0 < max_value then ratTrunc (value / max_value * 100) else 0

/-- The generic suffixes of `create_lookup` (line 91 of `enrich_leagues.py`). -/
def commonSuffixes : List String := [" league", " division", " liga", " tour"]

/-- The keys under which one raw name is indexed: its canonical form, plus,
for each matching suffix, the suffix-stripped form
`normalized[:-len(suffix)].strip()`. -/
def aliasKeys (normalized : String) : List String :=
  normalized :: (commonSuffixes.filter (fun s => pyEndsWith normalized s)).map
    (fun s => pyStrip (pyDropRight normalized s.data.length))

/-- `create_lookup` from `enrich_leagues.py`, as the sequence of dict
insertions it performs, in order. Later insertions of an existing key
overwrite earlier ones, which `dictGet` reproduces by taking the latest
binding. -/
def create_lookup (data : List (String × JRec)) : List (String × JRec) :=
  data.flatMap (fun p => (aliasKeys (normalize_league_name p.1)).map (fun k => (k, p.2)))

/-- Reading a key from an insertion sequence with Python-dict overwrite
semantics: the most recent binding wins. -/
def dictGet {α : Type} (d : List (String × α)) (k : String) : Option α :=
  (d.reverse.find? (fun p => p.1 == k)).map (fun p => p.2)

/-- Python truthiness of a dict: nonempty. -/
def dictTruthy (r : JRec) : Bool := !r.isEmpty

/-- Truthiness of `wiki_data` / `trends_data_item`, which are either `None`
or a matched dict. -/
def optTruthy : Option JRec → Bool
  | none => false
  | some r => dictTruthy r

/-- The partial-match test of lines 129/135/191 of `enrich_leagues.py`:
`pop_name in normalized or normalized in pop_name`. -/
def partialMatches (target key : String) : Bool :=
  containsStr target key || containsStr key target

/-- The wiki/trends matching of lines 117–137 of `enrich_leagues.py`:
start from the exact-key binding (or `None`), and if the result is falsy run
the partial scan, keeping the first hit in index iteration order; when the
scan also fails the earlier value (exact binding or `None`) remains. -/
def matchEntity (target : String) (idx : List (String × JRec)) : Option JRec :=
  let exact := idx.lookup target
  if optTruthy exact then exact
  else
    match idx.find? (fun p => partialMatches target p.1) with
    | some p => some p.2
    | none => exact

/-- The season matching of lines 185–193 of `enrich_leagues.py`: the partial
scan runs only when the exact KEY is absent (an `else` on membership, unlike
the truthiness test used for wiki/trends). -/
def matchSeason (target : String) (idx : List (String × JRec)) : Option JRec :=
  match idx.lookup target with
  | some r => some r
  | none => (idx.find? (fun p => partialMatches target p.1)).map (fun p => p.2)

/-- WIKI_WEIGHT = 0.55 (line 103). -/
def WIKI_WEIGHT : ℚ := 55 / 100

/-- TRENDS_WEIGHT = 0.45 (line 104). -/
def TRENDS_WEIGHT : ℚ := 45 / 100

/-- The `popularity` block attached to a league (lines 168–180). -/
structure Popularity where
  score : ℤ
  tier : String
  sources : List String
  wikipedia_monthly_views : Option ℚ
  wikipedia_score : Option ℤ
  google_trends_index : Option ℚ
  google_trends_score : Option ℤ
deriving DecidableEq

/-- `d.get(key, 0)` where the pipeline stores a number under `key`: absent
or non-numeric fields read as the numeric default 0. -/
def jgetNum (d : JRec) (k : String) : ℚ :=
  match d.lookup k with
  | some (JVal.num q) => q
  | _ => 0

/-- Collapse a matched record to the numeric value the fusion step uses:
`some` iff the record is truthy (the only distinction lines 139–182 make),
carrying `record.get(field, 0)`. -/
def truthyNum (r : Option JRec) (k : String) : Option ℚ :=
  match r with
  | some d => if dictTruthy d then some (jgetNum d k) else none
  | none => none

/-- Lines 139–182 of `enrich_leagues.py`: the score-fusion step for one
league. `wikiData` / `trendsData` are the matched sources collapsed by
`truthyNum`; the result is the attached popularity block, or `none` when no
truthy source matched. -/
noncomputable def fusePopularity (wikiData trendsData : Option ℚ)
    (wikiMax trendsMax : ℚ) : Option Popularity :=
  if wikiData.isSome || trendsData.isSome then
    let wiki_views := wikiData.getD 0
    let trends_index := trendsData.getD 0
    let wiki_norm := normalize_log_scale wiki_views wikiMax
    let trends_norm := normalize_linear trends_index trendsMax
    let sources_used :=
      (if wikiData.isSome then ["wikipedia"] else []) ++
      (if trendsData.isSome then ["google_trends"] else [])
    let total_weight :=
      (if wikiData.isSome then WIKI_WEIGHT else 0) +
      (if trendsData.isSome then TRENDS_WEIGHT else 0)
    let combined_score :=
      if 0 < total_weight then
        ratTrunc ((if wikiData.isSome then (wiki_norm : ℚ) * WIKI_WEIGHT / total_weight else 0) +
                  (if trendsData.isSome then (trends_norm : ℚ) * TRENDS_WEIGHT / total_weight else 0))
      else 0
    some { score := combined_score
           tier := calculate_tier combined_score
           sources := sources_used
           wikipedia_monthly_views := if wikiData.isSome then some wiki_views else none
           wikipedia_score := if wikiData.isSome then some wiki_norm else none
           google_trends_index := if trendsData.isSome then some trends_index else none
           google_trends_score := if trendsData.isSome then some trends_norm else none }
  else none

/-- The `season` block attached to a league (lines 196–201). -/
structure Season where
  current : Option JVal
  start_date : Option JVal
  end_date : Option JVal
  events_count : Option JVal
deriving DecidableEq

/-- A league record of the merged catalog: its `name`, all its other fields
(kept abstract in `extra`), and the two optional blocks the enrichment pass
writes. -/
structure League where
  name : String
  extra : List (String × JVal)
  popularity : Option Popularity
  season : Option Season
deriving DecidableEq

/-- The per-league body of the enrichment loop (lines 112–201 of
`enrich_leagues.py`): match both signal sources and the seasons source
against the normalized name, attach a popularity block when a truthy source
matched and a season block when a truthy season record matched, leaving the
existing blocks (and every other field) alone otherwise. -/
noncomputable def enrichLeague (wIdx tIdx sIdx : List (String × JRec))
    (wikiMax trendsMax : ℚ) (L : League) : League :=
  let normalized := normalize_league_name L.name
  let wikiRec := matchEntity normalized wIdx
  let trendsRec := matchEntity normalized tIdx
  let pop := fusePopularity (truthyNum wikiRec "wikipedia_monthly_views")
    (truthyNum trendsRec "google_trends_index") wikiMax trendsMax
  let seasonRec := matchSeason normalized sIdx
  { name := L.name
    extra := L.extra
    popularity := match pop with | some p => some p | none => L.popularity
    season :=
      match seasonRec with
      | some d =>
          if dictTruthy d then
            some ⟨d.lookup "current_season", d.lookup "start_date",
                  d.lookup "end_date", d.lookup "events_count"⟩
          else L.season
      | none => L.season }

/-- The catalog structure: countries, each with leagues grouped by sport. -/
abbrev Catalog := List (String × List (String × List League))

/-- The whole enrichment pass over the catalog (lines 108–201): every league
of every sport of every country is enriched in place; the grouping structure
is not touched. -/
noncomputable def enrichCatalog (wIdx tIdx sIdx : List (String × JRec))
    (wikiMax trendsMax : ℚ) (cat : Catalog) : Catalog :=
  cat.map (fun c => (c.1, c.2.map (fun s =>
    (s.1, s.2.map (enrichLeague wIdx tIdx sIdx wikiMax trendsMax)))))

end EnrichLeagues

namespace FetchPopularity

/-- `calculate_tier` from `fetch_popularity.py` (the single-source ladder). -/
def calculate_tier (score : ℤ) : String :=
  if 80 ≤ score then "A"
  else if 60 ≤ score then "B"
  else if 40 ≤ score then "C"
  else "D"

end FetchPopularity

/-- The quality order on tiers used to state monotonicity: D < C < B < A. -/
def tierRank (t : String) : ℕ :=
  if t = "A" then 3 else if t = "B" then 2 else if t = "C" then 1 else 0

/-- `containsChars` decides substring (infix) containment. -/
theorem containsChars_correct (hay sub : List Char) :
    containsChars hay sub = true ↔ sub <:+: hay := by
  unfold containsChars
  rw [List.any_eq_true]
  constructor
  · rintro ⟨i, -, hpre⟩
    rw [List.isPrefixOf_iff_prefix] at hpre
    exact hpre.isInfix.trans (List.drop_suffix i hay).isInfix
  · rintro ⟨s, t, rfl⟩
    refine ⟨s.length, ?_, ?_⟩
    · simp [List.mem_range]
      omega
    · rw [List.isPrefixOf_iff_prefix, List.append_assoc, List.drop_left]
      exact ⟨t, rfl⟩

/-- A fragment-list scan succeeds iff some fragment is an infix. -/
theorem anyContains_iff (L : List String) (s : String) :
    (L.any (fun c => containsStr s c)) = true ↔ ∃ c ∈ L, c.data <:+: s.data := by
  rw [List.any_eq_true]
  constructor
  · rintro ⟨c, hc, h⟩
    exact ⟨c, hc, (containsChars_correct s.data c.data).mp h⟩
  · rintro ⟨c, hc, h⟩
    exact ⟨c, hc, (containsChars_correct s.data c.data).mpr h⟩

/-- Python `int()` is the identity on integers. -/
theorem ratTrunc_intCast (n : ℤ) : ratTrunc (n : ℚ) = n := by
  unfold ratTrunc
  split
  · exact Int.floor_intCast n
  · exact Int.ceil_intCast n

/-- C5: the Keyword Classifier assigns the level of the first matching rule,
in the order known-World fragments, known-Continental fragments, generic
World tokens, generic Continental tokens, generic National tokens, default
Other — `get_competition_level` coincides with the spec-side priority
cascade `specLevel` — and on name "2026 UEFA European Championship" with
empty competition it returns Continental (level 2). -/
theorem claim5_classifier_priority :
    (∀ name competition : String,
      BuildEvents.get_competition_level name competition =
        BuildEvents.specLevel name competition) ∧
    BuildEvents.get_competition_level "2026 UEFA European Championship" "" = 2 := by
  constructor
  · intro name competition
    unfold BuildEvents.get_competition_level BuildEvents.specLevel
    simp only [anyContains_iff]
  · decide

/-- C2: both tier ladders are monotone non-decreasing in the score (with
tiers ordered D < C < B < A), and they partition the scores into four
contiguous bands with boundaries {25,50,75} for the fused ladder and
{40,60,80} for the single-source ladder. -/
theorem claim2_tier_ladders :
    (∀ s t : ℤ, s ≤ t →
      tierRank (EnrichLeagues.calculate_tier s) ≤ tierRank (EnrichLeagues.calculate_tier t)) ∧
    (∀ s t : ℤ, s ≤ t →
      tierRank (FetchPopularity.calculate_tier s) ≤ tierRank (FetchPopularity.calculate_tier t)) ∧
    (∀ s : ℤ,
      (EnrichLeagues.calculate_tier s = "A" ↔ 75 ≤ s) ∧
      (EnrichLeagues.calculate_tier s = "B" ↔ 50 ≤ s ∧ s < 75) ∧
      (EnrichLeagues.calculate_tier s = "C" ↔ 25 ≤ s ∧ s < 50) ∧
      (EnrichLeagues.calculate_tier s = "D" ↔ s < 25)) ∧
    (∀ s : ℤ,
      (FetchPopularity.calculate_tier s = "A" ↔ 80 ≤ s) ∧
      (FetchPopularity.calculate_tier s = "B" ↔ 60 ≤ s ∧ s < 80) ∧
      (FetchPopularity.calculate_tier s = "C" ↔ 40 ≤ s ∧ s < 60) ∧
      (FetchPopularity.calculate_tier s = "D" ↔ s < 40)) := by
  refine ⟨?_, ?_, ?_, ?_⟩
  · intro s t h
    unfold EnrichLeagues.calculate_tier
    split_ifs <;> first | decide | omega
  · intro s t h
    unfold FetchPopularity.calculate_tier
    split_ifs <;> first | decide | omega
  · intro s
    unfold EnrichLeagues.calculate_tier
    split_ifs <;> refine ⟨?_, ?_, ?_, ?_⟩ <;> constructor <;> intro h <;>
      first | omega | simp_all
  · intro s
    unfold FetchPopularity.calculate_tier
    split_ifs <;> refine ⟨?_, ?_, ?_, ?_⟩ <;> constructor <;> intro h <;>
      first | omega | simp_all

/-- Witness for C2 at concrete scores. -/
theorem claim2_tier_ladders_witness :
    tierRank (EnrichLeagues.calculate_tier 30) ≤ tierRank (EnrichLeagues.calculate_tier 80) ∧
    tierRank (FetchPopularity.calculate_tier 30) ≤ tierRank (FetchPopularity.calculate_tier 80) ∧
    (EnrichLeagues.calculate_tier 80 = "A" ↔ (75 : ℤ) ≤ 80) ∧
    (FetchPopularity.calculate_tier 30 = "D" ↔ (30 : ℤ) < 40) :=
  ⟨claim2_tier_ladders.1 30 80 (by norm_num),
   claim2_tier_ladders.2.1 30 80 (by norm_num),
   (claim2_tier_ladders.2.2.1 80).1,
   (claim2_tier_ladders.2.2.2 30).2.2.2⟩

/-- C1 counterexample: the linear normalization of 2 against 3 is 66
(Python `int()` truncation), not `round(2/3*100) = 67` as the claim
states. -/
theorem claim1_round_counterexample :
    ¬ (EnrichLeagues.normalize_linear 2 3 = round ((2 : ℚ) / 3 * 100)) := by
  have h1 : EnrichLeagues.normalize_linear 2 3 = 66 := by
    unfold EnrichLeagues.normalize_linear ratTrunc
    norm_num
  have h2 : round ((2 : ℚ) / 3 * 100) = 67 := by
    rw [round_eq]
    norm_num
  omega

/-- C1 amended: the normalizations truncate toward zero instead of
rounding: the logarithmic normalization returns
`⌊log10(v+1)/log10(m+1)*100⌋` for positive arguments and 0 when `v ≤ 0` or
`m ≤ 0`; the linear normalization returns `⌊v/m*100⌋` for `v ≥ 0 < m`
(`⌈·⌉`, i.e. truncation, for negative `v`) and 0 when `m ≤ 0`. -/
theorem claim1_truncation_amended :
    ∀ v m : ℚ,
      (v ≤ 0 ∨ m ≤ 0 → EnrichLeagues.normalize_log_scale v m = 0) ∧
      (0 < v → 0 < m →
        EnrichLeagues.normalize_log_scale v m =
          ⌊Real.logb 10 ((v : ℝ) + 1) / Real.logb 10 ((m : ℝ) + 1) * 100⌋) ∧
      (m ≤ 0 → EnrichLeagues.normalize_linear v m = 0) ∧
      (0 < m → 0 ≤ v → EnrichLeagues.normalize_linear v m = ⌊v / m * 100⌋) ∧
      (0 < m → v < 0 → EnrichLeagues.normalize_linear v m = ⌈v / m * 100⌉) := by
  intro v m
  refine ⟨?_, ?_, ?_, ?_, ?_⟩
  · intro h
    unfold EnrichLeagues.normalize_log_scale
    rw [if_pos h]
  · intro hv hm
    have hvR : (0 : ℝ) < (v : ℝ) := by exact_mod_cast hv
    have hmR : (0 : ℝ) < (m : ℝ) := by exact_mod_cast hm
    unfold EnrichLeagues.normalize_log_scale realTrunc
    rw [if_neg (by push_neg; constructor <;> linarith)]
    have h1 : (0 : ℝ) ≤ Real.logb 10 ((v : ℝ) + 1) :=
      Real.logb_nonneg (by norm_num) (by linarith)
    have h2 : (0 : ℝ) < Real.logb 10 ((m : ℝ) + 1) :=
      Real.logb_pos (by norm_num) (by linarith)
    rw [if_pos (mul_nonneg (div_nonneg h1 h2.le) (by norm_num))]
  · intro h
    unfold EnrichLeagues.normalize_linear
    rw [if_neg (by linarith)]
  · intro hm hv
    unfold EnrichLeagues.normalize_linear ratTrunc
    rw [if_pos hm, if_pos (by positivity)]
  · intro hm hv
    have hneg : v / m * 100 < 0 :=
      mul_neg_of_neg_of_pos (div_neg_of_neg_of_pos hv hm) (by norm_num)
    unfold EnrichLeagues.normalize_linear ratTrunc
    rw [if_pos hm, if_neg (not_le.mpr hneg)]

/-- Witness for the amended C1 at concrete inputs. -/
theorem claim1_truncation_amended_witness :
    EnrichLeagues.normalize_linear 2 3 = ⌊(2 : ℚ) / 3 * 100⌋ ∧
    EnrichLeagues.normalize_log_scale (-1) 5 = 0 :=
  ⟨(claim1_truncation_amended 2 3).2.2.2.1 (by norm_num) (by norm_num),
   (claim1_truncation_amended (-1) 5).1 (Or.inl (by norm_num))⟩

/-- C7 counterexample: for `v = 200 > max = 100` the linear normalization
returns 200, outside [0,100] — the claim as stated omits the `v ≤ max`
precondition under which the maxima are computed. -/
theorem claim7_range_counterexample :
    ¬ (0 ≤ EnrichLeagues.normalize_linear 200 100 ∧
       EnrichLeagues.normalize_linear 200 100 ≤ 100) := by
  have h : EnrichLeagues.normalize_linear 200 100 = 200 := by
    unfold EnrichLeagues.normalize_linear ratTrunc
    norm_num
  omega

/-- C7 amended: for `0 ≤ v ≤ max` and `max > 0` — the situation the
per-source maxima guarantee — both normalizations lie in [0,100],
normalizing 0 yields 0 under both policies, and the linear normalization of
`max` against `max` is exactly 100. -/
theorem claim7_bounds_amended :
    ∀ v m : ℚ, 0 ≤ v → v ≤ m → 0 < m →
      (0 ≤ EnrichLeagues.normalize_log_scale v m ∧
        EnrichLeagues.normalize_log_scale v m ≤ 100) ∧
      (0 ≤ EnrichLeagues.normalize_linear v m ∧
        EnrichLeagues.normalize_linear v m ≤ 100) ∧
      EnrichLeagues.normalize_log_scale 0 m = 0 ∧
      EnrichLeagues.normalize_linear 0 m = 0 ∧
      EnrichLeagues.normalize_linear m m = 100 := by
  intro v m hv hvm hm
  have hmR : (0 : ℝ) < (m : ℝ) := by exact_mod_cast hm
  refine ⟨?_, ?_, ?_, ?_, ?_⟩
  · by_cases hv0 : v ≤ 0
    · unfold EnrichLeagues.normalize_log_scale
      rw [if_pos (Or.inl hv0)]
      norm_num
    · push_neg at hv0
      have hvR : (0 : ℝ) < (v : ℝ) := by exact_mod_cast hv0
      have hvmR : (v : ℝ) ≤ (m : ℝ) := by exact_mod_cast hvm
      unfold EnrichLeagues.normalize_log_scale realTrunc
      rw [if_neg (by push_neg; constructor <;> linarith)]
      have h1 : (0 : ℝ) ≤ Real.logb 10 ((v : ℝ) + 1) :=
        Real.logb_nonneg (by norm_num) (by linarith)
      have h2 : (0 : ℝ) < Real.logb 10 ((m : ℝ) + 1) :=
        Real.logb_pos (by norm_num) (by linarith)
      have hexpr0 : 0 ≤ Real.logb 10 ((v : ℝ) + 1) / Real.logb 10 ((m : ℝ) + 1) * 100 :=
        mul_nonneg (div_nonneg h1 h2.le) (by norm_num)
      rw [if_pos hexpr0]
      refine ⟨Int.floor_nonneg.mpr hexpr0, ?_⟩
      have hle : Real.logb 10 ((v : ℝ) + 1) ≤ Real.logb 10 ((m : ℝ) + 1) :=
        Real.logb_le_logb_of_le (by norm_num) (by linarith) (by linarith)
      have hratio : Real.logb 10 ((v : ℝ) + 1) / Real.logb 10 ((m : ℝ) + 1) ≤ 1 :=
        (div_le_one h2).mpr hle
      calc ⌊Real.logb 10 ((v : ℝ) + 1) / Real.logb 10 ((m : ℝ) + 1) * 100⌋
          ≤ ⌊(100 : ℝ)⌋ := Int.floor_le_floor (by linarith)
        _ = 100 := by norm_num
  · unfold EnrichLeagues.normalize_linear ratTrunc
    rw [if_pos hm, if_pos (by positivity)]
    refine ⟨Int.floor_nonneg.mpr (by positivity), ?_⟩
    have h1 : v / m ≤ 1 := (div_le_one hm).mpr hvm
    calc ⌊v / m * 100⌋ ≤ ⌊(100 : ℚ)⌋ := Int.floor_le_floor (by linarith)
      _ = 100 := by norm_num
  · unfold EnrichLeagues.normalize_log_scale
    rw [if_pos (Or.inl le_rfl)]
  · unfold EnrichLeagues.normalize_linear ratTrunc
    rw [if_pos hm]
    norm_num
  · unfold EnrichLeagues.normalize_linear ratTrunc
    have hmm : m / m * 100 = (100 : ℚ) := by field_simp
    rw [if_pos hm, hmm, if_pos (by norm_num)]
    norm_num

/-- Witness for the amended C7 at concrete inputs. -/
theorem claim7_bounds_amended_witness :
    (0 ≤ EnrichLeagues.normalize_log_scale 3 7 ∧
      EnrichLeagues.normalize_log_scale 3 7 ≤ 100) ∧
    (0 ≤ EnrichLeagues.normalize_linear 3 7 ∧
      EnrichLeagues.normalize_linear 3 7 ≤ 100) ∧
    EnrichLeagues.normalize_log_scale 0 7 = 0 ∧
    EnrichLeagues.normalize_linear 0 7 = 0 ∧
    EnrichLeagues.normalize_linear 7 7 = 100 :=
  claim7_bounds_amended 3 7 (by norm_num) (by norm_num) (by norm_num)

/-- Logarithmic normalization of a zero value is 0 (the `value <= 0` guard). -/
theorem normalize_log_scale_zero (m : ℚ) : EnrichLeagues.normalize_log_scale 0 m = 0 := by
  unfold EnrichLeagues.normalize_log_scale
  rw [if_pos (Or.inl le_rfl)]

/-- Linear normalization of a zero value is 0 for every maximum. -/
theorem normalize_linear_zero (m : ℚ) : EnrichLeagues.normalize_linear 0 m = 0 := by
  unfold EnrichLeagues.normalize_linear
  split
  · norm_num [ratTrunc]
  · rfl

/-- Evaluation of the fusion step when only the Wikipedia source matched:
the weight reweighting cancels (`(wn * 0.55) / 0.55 = wn` exactly) and the
attached block carries the wiki sub-score as the combined score. -/
theorem fuse_wiki_only (a wm tm : ℚ) :
    EnrichLeagues.fusePopularity (some a) none wm tm =
      some { score := EnrichLeagues.normalize_log_scale a wm
             tier := EnrichLeagues.calculate_tier (EnrichLeagues.normalize_log_scale a wm)
             sources := ["wikipedia"]
             wikipedia_monthly_views := some a
             wikipedia_score := some (EnrichLeagues.normalize_log_scale a wm)
             google_trends_index := none
             google_trends_score := none } := by
  unfold EnrichLeagues.fusePopularity
  norm_num [EnrichLeagues.WIKI_WEIGHT, EnrichLeagues.TRENDS_WEIGHT]
  simp [ratTrunc_intCast]

/-- Evaluation of the fusion step when only the Google-Trends source
matched. -/
theorem fuse_trends_only (b wm tm : ℚ) :
    EnrichLeagues.fusePopularity none (some b) wm tm =
      some { score := EnrichLeagues.normalize_linear b tm
             tier := EnrichLeagues.calculate_tier (EnrichLeagues.normalize_linear b tm)
             sources := ["google_trends"]
             wikipedia_monthly_views := none
             wikipedia_score := none
             google_trends_index := some b
             google_trends_score := some (EnrichLeagues.normalize_linear b tm) } := by
  unfold EnrichLeagues.fusePopularity
  norm_num [EnrichLeagues.WIKI_WEIGHT, EnrichLeagues.TRENDS_WEIGHT]
  simp [ratTrunc_intCast]

/-- Evaluation of the fusion step when both sources matched
(total weight 0.55 + 0.45 = 1). -/
theorem fuse_both (a b wm tm : ℚ) :
    EnrichLeagues.fusePopularity (some a) (some b) wm tm =
      some { score := ratTrunc ((EnrichLeagues.normalize_log_scale a wm : ℚ) * (11 / 20) +
                                (EnrichLeagues.normalize_linear b tm : ℚ) * (9 / 20))
             tier := EnrichLeagues.calculate_tier
               (ratTrunc ((EnrichLeagues.normalize_log_scale a wm : ℚ) * (11 / 20) +
                          (EnrichLeagues.normalize_linear b tm : ℚ) * (9 / 20)))
             sources := ["wikipedia", "google_trends"]
             wikipedia_monthly_views := some a
             wikipedia_score := some (EnrichLeagues.normalize_log_scale a wm)
             google_trends_index := some b
             google_trends_score := some (EnrichLeagues.normalize_linear b tm) } := by
  unfold EnrichLeagues.fusePopularity
  norm_num [EnrichLeagues.WIKI_WEIGHT, EnrichLeagues.TRENDS_WEIGHT]

/-- The fusion step attaches a block exactly when a truthy source matched. -/
theorem fuse_isSome (w t : Option ℚ) (wm tm : ℚ) :
    (EnrichLeagues.fusePopularity w t wm tm).isSome = (w.isSome || t.isSome) := by
  cases w <;> cases t <;> simp [EnrichLeagues.fusePopularity]

/-- C3 counterexample: a league whose only matched source record carries
`wikipedia_monthly_views = 0` gets a popularity block attached with score
0 — "a block with score 0 is impossible by construction" is false. -/
theorem claim3_zero_score_counterexample :
    (EnrichLeagues.fusePopularity (some 0) none 100 100).isSome = true ∧
    (EnrichLeagues.fusePopularity (some 0) none 100 100).map
      EnrichLeagues.Popularity.score = some 0 := by
  rw [fuse_wiki_only]
  simp [normalize_log_scale_zero]

/-- C3 amended: a popularity block is attached iff at least one truthy
source record matched; an attached block CAN have score 0 — whenever every
matched source's extracted value is 0, the attached score is 0. -/
theorem claim3_attachment_amended :
    ∀ (w t : Option ℚ) (wm tm : ℚ),
      ((EnrichLeagues.fusePopularity w t wm tm).isSome = true ↔
        (w.isSome = true ∨ t.isSome = true)) ∧
      ((w = none ∨ w = some 0) → (t = none ∨ t = some 0) →
        (w.isSome = true ∨ t.isSome = true) →
        (EnrichLeagues.fusePopularity w t wm tm).map
          EnrichLeagues.Popularity.score = some 0) := by
  intro w t wm tm
  constructor
  · rw [fuse_isSome]
    simp
  · rintro (rfl | rfl) (rfl | rfl) hsome
    · simp at hsome
    · rw [fuse_trends_only]
      simp [normalize_linear_zero]
    · rw [fuse_wiki_only]
      simp [normalize_log_scale_zero]
    · rw [fuse_both]
      simp [normalize_log_scale_zero, normalize_linear_zero]
      norm_num [ratTrunc]

/-- Witness for the amended C3 at a concrete zero-valued wiki-only input. -/
theorem claim3_attachment_amended_witness :
    (EnrichLeagues.fusePopularity (some 0) none 5 5).map
      EnrichLeagues.Popularity.score = some 0 :=
  (claim3_attachment_amended (some 0) none 5 5).2 (Or.inr rfl) (Or.inl rfl) (Or.inl rfl)

/-- C8: in the exact-arithmetic embedding, fusion with exactly one present
source reduces to that source's normalized value unchanged: reweighting to
`total_weight = w` makes the contribution ratio `(norm * w) / w = norm`. -/
theorem claim8_single_source_reduction :
    ∀ v wm tm : ℚ,
      (EnrichLeagues.fusePopularity (some v) none wm tm).map
        EnrichLeagues.Popularity.score = some (EnrichLeagues.normalize_log_scale v wm) ∧
      (EnrichLeagues.fusePopularity none (some v) wm tm).map
        EnrichLeagues.Popularity.score = some (EnrichLeagues.normalize_linear v tm) := by
  intro v wm tm
  rw [fuse_wiki_only, fuse_trends_only]
  exact ⟨rfl, rfl⟩

/-- `foldl max` dominates its seed and every element. -/
theorem le_foldl_max (xs : List ℤ) :
    ∀ a : ℤ, a ≤ xs.foldl max a ∧ ∀ e ∈ xs, e ≤ xs.foldl max a := by
  induction xs with
  | nil =>
    intro a
    exact ⟨le_refl a, by simp⟩
  | cons x t ih =>
    intro a
    refine ⟨le_trans (le_max_left a x) (ih (max a x)).1, ?_⟩
    intro e he
    rcases List.mem_cons.mp he with rfl | he
    · exact le_trans (le_max_right a e) (ih (max a e)).1
    · exact (ih (max a x)).2 e he

/-- `foldl max` returns its seed or an element. -/
theorem foldl_max_mem (xs : List ℤ) :
    ∀ a : ℤ, xs.foldl max a = a ∨ xs.foldl max a ∈ xs := by
  induction xs with
  | nil =>
    intro a
    exact Or.inl rfl
  | cons x t ih =>
    intro a
    rw [List.foldl_cons]
    rcases ih (max a x) with h | h
    · rcases max_choice a x with hc | hc
      · exact Or.inl (h.trans hc)
      · rw [h, hc]
        exact Or.inr (List.mem_cons_self x t)
    · exact Or.inr (List.mem_cons_of_mem x h)

/-- Python `max(l, default=0)` dominates every element. -/
theorem le_pyMaxDefault0 (l : List ℤ) : ∀ e ∈ l, e ≤ BuildEvents.pyMaxDefault0 l := by
  cases l with
  | nil => simp
  | cons x t =>
    intro e he
    unfold BuildEvents.pyMaxDefault0
    rcases List.mem_cons.mp he with rfl | he
    · exact (le_foldl_max t e).1
    · exact (le_foldl_max t x).2 e he

/-- On a nonempty list, Python `max(l, default=0)` is attained. -/
theorem pyMaxDefault0_mem (l : List ℤ) (h : l ≠ []) : BuildEvents.pyMaxDefault0 l ∈ l := by
  cases l with
  | nil => exact absurd rfl h
  | cons x t =>
    show t.foldl max x ∈ x :: t
    rcases foldl_max_mem t x with hm | hm
    · rw [hm]
      exact List.mem_cons_self x t
    · exact List.mem_cons_of_mem x hm

/-- C4: for an id-unique input sequence, the merged event list never
contains two events with the same id; every surrogate id is strictly
greater than every pre-existing id; and the surrogate base
`max(existing) + 1000` really sits 1000 above the attained maximum of the
pre-existing ids. -/
theorem claim4_id_uniqueness :
    ∀ (existingIds : List ℤ) (k : ℕ), existingIds.Nodup →
      (BuildEvents.mergedEventIds existingIds k).Nodup ∧
      (∀ e ∈ existingIds, ∀ s ∈ BuildEvents.surrogateIds existingIds k, e < s) ∧
      (existingIds ≠ [] → BuildEvents.pyMaxDefault0 existingIds ∈ existingIds) ∧
      (∀ e ∈ existingIds, e ≤ BuildEvents.pyMaxDefault0 existingIds) := by
  intro ids k hnd
  have hle := le_pyMaxDefault0 ids
  have hlt : ∀ e ∈ ids, ∀ s ∈ BuildEvents.surrogateIds ids k, e < s := by
    intro e he s hs
    unfold BuildEvents.surrogateIds at hs
    rcases List.mem_map.mp hs with ⟨i, hi, rfl⟩
    have h1 := hle e he
    have h2 : (0 : ℤ) ≤ (i : ℤ) := Int.natCast_nonneg i
    omega
  refine ⟨?_, hlt, pyMaxDefault0_mem ids, hle⟩
  unfold BuildEvents.mergedEventIds
  refine hnd.append ?_ ?_
  · unfold BuildEvents.surrogateIds
    exact (List.nodup_range k).map (fun i j hij => by
      have : (i : ℤ) = (j : ℤ) := by omega
      exact_mod_cast this)
  · intro e he hs
    exact absurd rfl (ne_of_lt (hlt e he e hs))

/-- Witness for C4 at a concrete id list. -/
theorem claim4_id_uniqueness_witness :
    (BuildEvents.mergedEventIds [3, 7, 5] 2).Nodup ∧
    (∀ e ∈ ([3, 7, 5] : List ℤ), ∀ s ∈ BuildEvents.surrogateIds [3, 7, 5] 2, e < s) ∧
    (([3, 7, 5] : List ℤ) ≠ [] → BuildEvents.pyMaxDefault0 [3, 7, 5] ∈ ([3, 7, 5] : List ℤ)) ∧
    (∀ e ∈ ([3, 7, 5] : List ℤ), e ≤ BuildEvents.pyMaxDefault0 [3, 7, 5]) :=
  claim4_id_uniqueness [3, 7, 5] 2 (by decide)


/-- Exact dict lookup on a unique-keyed association list finds the
binding. -/
theorem lookup_eq_some_of_mem {α : Type} (l : List (String × α)) (k : String) (v : α)
    (hnd : (l.map Prod.fst).Nodup) (hm : (k, v) ∈ l) : l.lookup k = some v := by
  induction l with
  | nil => simp at hm
  | cons p t ih =>
    obtain ⟨a, b⟩ := p
    rw [List.map_cons] at hnd
    rcases List.mem_cons.mp hm with heq | hmem
    · obtain ⟨rfl, rfl⟩ := Prod.mk.injEq .. ▸ heq
      simp [List.lookup]
    · have hka : k ≠ a := by
        rintro rfl
        exact (List.nodup_cons.mp hnd).1 (List.mem_map.mpr ⟨(k, v), hmem, rfl⟩)
      have hbeq : (k == a) = false := by simpa using hka
      simp only [List.lookup, hbeq]
      exact ih (List.nodup_cons.mp hnd).2 hmem

/-- Exact dict lookup misses when the key is absent. -/
theorem lookup_eq_none_of_not_mem_keys {α : Type} (l : List (String × α)) (k : String)
    (h : k ∉ l.map Prod.fst) : l.lookup k = none := by
  induction l with
  | nil => rfl
  | cons p t ih =>
    obtain ⟨a, b⟩ := p
    rw [List.map_cons] at h
    have hka : k ≠ a := fun hk => h (hk ▸ List.mem_cons_self a (t.map Prod.fst))
    have hbeq : (k == a) = false := by simpa using hka
    simp only [List.lookup, hbeq]
    exact ih (fun hmem => h (List.mem_cons_of_mem a hmem))

/-- On a unique-keyed association list, the first entry holding a key is
THE entry holding it. -/
theorem find?_key_eq_some {α : Type} (l : List (String × α)) (k : String) (v : α)
    (hnd : (l.map Prod.fst).Nodup) (hm : (k, v) ∈ l) :
    l.find? (fun p => p.1 == k) = some (k, v) := by
  induction l with
  | nil => simp at hm
  | cons p t ih =>
    obtain ⟨a, b⟩ := p
    rw [List.map_cons] at hnd
    rcases List.mem_cons.mp hm with heq | hmem
    · obtain ⟨rfl, rfl⟩ := Prod.mk.injEq .. ▸ heq
      simp [List.find?]
    · have hka : a ≠ k := by
        rintro rfl
        exact (List.nodup_cons.mp hnd).1 (List.mem_map.mpr ⟨(a, v), hmem, rfl⟩)
      rw [List.find?_cons_of_neg _ (by simpa using hka)]
      exact ih (List.nodup_cons.mp hnd).2 hmem

/-- Last-wins dict reading on a unique-keyed insertion sequence returns the
unique binding. -/
theorem dictGet_eq_some {α : Type} (d : List (String × α)) (k : String) (v : α)
    (hnd : (d.map Prod.fst).Nodup) (hm : (k, v) ∈ d) :
    EnrichLeagues.dictGet d k = some v := by
  unfold EnrichLeagues.dictGet
  rw [find?_key_eq_some d.reverse k v ?_ (List.mem_reverse.mpr hm)]
  · rfl
  · rw [List.map_reverse]
    exact List.nodup_reverse.mpr hnd


/-- C6: for every target and every index (a dict of nonempty source
records), the Entity Matcher returns the record stored under the exact key
when present; otherwise the record of the first key in index iteration
order that is a substring of the target or contains it; and nothing — not
an error — when no key qualifies. -/
theorem claim6_matcher :
    ∀ (target : String) (idx : List (String × JRec)),
      (idx.map Prod.fst).Nodup →
      (∀ p ∈ idx, p.2 ≠ []) →
      (∀ r : JRec, (target, r) ∈ idx → EnrichLeagues.matchEntity target idx = some r) ∧
      (target ∉ idx.map Prod.fst →
        EnrichLeagues.matchEntity target idx =
          (idx.find? (fun p => EnrichLeagues.partialMatches target p.1)).map (fun p => p.2)) ∧
      (target ∉ idx.map Prod.fst →
        (∀ p ∈ idx, EnrichLeagues.partialMatches target p.1 = false) →
        EnrichLeagues.matchEntity target idx = none) := by
  intro target idx hnd htruthy
  refine ⟨?_, ?_, ?_⟩
  · intro r hm
    have hlk : idx.lookup target = some r := lookup_eq_some_of_mem idx target r hnd hm
    have htr : EnrichLeagues.optTruthy (some r) = true := by
      unfold EnrichLeagues.optTruthy EnrichLeagues.dictTruthy
      simpa using htruthy (target, r) hm
    simp only [EnrichLeagues.matchEntity]
    rw [hlk, if_pos htr]
  · intro hnotin
    have hlk : idx.lookup target = none := lookup_eq_none_of_not_mem_keys idx target hnotin
    simp only [EnrichLeagues.matchEntity]
    rw [hlk]
    cases hfind : idx.find? (fun p => EnrichLeagues.partialMatches target p.1) <;>
      simp [EnrichLeagues.optTruthy]
  · intro hnotin hnone
    have hlk : idx.lookup target = none := lookup_eq_none_of_not_mem_keys idx target hnotin
    have hfind : idx.find? (fun p => EnrichLeagues.partialMatches target p.1) = none :=
      List.find?_eq_none.mpr (fun p hp => by simp [hnone p hp])
    simp only [EnrichLeagues.matchEntity]
    rw [hlk, hfind]
    simp [EnrichLeagues.optTruthy]

/-- Witness for C6 at a concrete one-entry index. -/
theorem claim6_matcher_witness :
    EnrichLeagues.matchEntity "premier league"
      [("premier league", [("wikipedia_monthly_views", JVal.num 5)])] =
      some [("wikipedia_monthly_views", JVal.num 5)] :=
  (claim6_matcher "premier league"
    [("premier league", [("wikipedia_monthly_views", JVal.num 5)])]
    (by decide) (by decide)).1 _ (by decide)

/-- C9 counterexample: an entry for "Super League Greece" is NOT found
under "super greece": its canonical form ends in " greece", not in any
configured suffix, so no stripped alias is ever inserted. -/
theorem claim9_counterexample :
    EnrichLeagues.dictGet (EnrichLeagues.create_lookup
      [("Super League Greece", [("wikipedia_monthly_views", JVal.num 5)])])
      "super greece" = none ∧
    pyEndsWith (EnrichLeagues.normalize_league_name "Super League Greece") " league" = false := by
  decide

/-- C9 amended: for every raw name whose canonical form DOES end in one of
the configured suffixes " league", " division", " tour", " liga", and whose
generated keys are not overwritten by other entries, the built index maps
both the canonical form and the suffix-stripped form to that source's
record (e.g. "Greece Super League" is also found under "greece super"). -/
theorem claim9_suffix_alias_amended :
    ∀ (data : List (String × JRec)) (n : String) (r : JRec) (s : String),
      ((EnrichLeagues.create_lookup data).map Prod.fst).Nodup →
      (n, r) ∈ data →
      s ∈ EnrichLeagues.commonSuffixes →
      pyEndsWith (EnrichLeagues.normalize_league_name n) s = true →
      EnrichLeagues.dictGet (EnrichLeagues.create_lookup data)
        (EnrichLeagues.normalize_league_name n) = some r ∧
      EnrichLeagues.dictGet (EnrichLeagues.create_lookup data)
        (pyStrip (pyDropRight (EnrichLeagues.normalize_league_name n) s.data.length)) =
        some r := by
  intro data n r s hnd hmem hs hends
  have hkeys : ∀ k ∈ EnrichLeagues.aliasKeys (EnrichLeagues.normalize_league_name n),
      (k, r) ∈ EnrichLeagues.create_lookup data := by
    intro k hk
    unfold EnrichLeagues.create_lookup
    rw [List.mem_flatMap]
    exact ⟨(n, r), hmem, List.mem_map.mpr ⟨k, hk, rfl⟩⟩
  have hk1 : EnrichLeagues.normalize_league_name n ∈
      EnrichLeagues.aliasKeys (EnrichLeagues.normalize_league_name n) := by
    unfold EnrichLeagues.aliasKeys
    exact List.mem_cons_self _ _
  have hk2 : pyStrip (pyDropRight (EnrichLeagues.normalize_league_name n) s.data.length) ∈
      EnrichLeagues.aliasKeys (EnrichLeagues.normalize_league_name n) := by
    unfold EnrichLeagues.aliasKeys
    exact List.mem_cons_of_mem _
      (List.mem_map.mpr ⟨s, List.mem_filter.mpr ⟨hs, hends⟩, rfl⟩)
  exact ⟨dictGet_eq_some _ _ r hnd (hkeys _ hk1), dictGet_eq_some _ _ r hnd (hkeys _ hk2)⟩

/-- Witness for the amended C9 on a concrete one-entry source. -/
theorem claim9_suffix_alias_amended_witness :
    EnrichLeagues.dictGet (EnrichLeagues.create_lookup
        [("Greece Super League", [("wikipedia_monthly_views", JVal.num 7)])])
      (EnrichLeagues.normalize_league_name "Greece Super League") =
      some [("wikipedia_monthly_views", JVal.num 7)] ∧
    EnrichLeagues.dictGet (EnrichLeagues.create_lookup
        [("Greece Super League", [("wikipedia_monthly_views", JVal.num 7)])])
      (pyStrip (pyDropRight (EnrichLeagues.normalize_league_name "Greece Super League")
        (" league" : String).data.length)) =
      some [("wikipedia_monthly_views", JVal.num 7)] :=
  claim9_suffix_alias_amended
    [("Greece Super League", [("wikipedia_monthly_views", JVal.num 7)])]
    ("Greece Super League") ([("wikipedia_monthly_views", JVal.num 7)]) (" league")
    (by decide) (by decide) (by decide) (by decide)

/-- C10: the enrichment pass preserves the country/sport grouping structure
(keys and league counts) and, for every league, every field other than the
`popularity` and `season` blocks — in particular its `name`. -/
theorem claim10_frame :
    ∀ (wIdx tIdx sIdx : List (String × JRec)) (wm tm : ℚ) (cat : EnrichLeagues.Catalog),
      List.Forall₂ (fun c c' => c.1 = c'.1 ∧
        List.Forall₂ (fun s s' => s.1 = s'.1 ∧
          List.Forall₂ (fun L L' =>
            L'.name = L.name ∧ L'.extra = L.extra) s.2 s'.2) c.2 c'.2)
        cat (EnrichLeagues.enrichCatalog wIdx tIdx sIdx wm tm cat) := by
  intro wIdx tIdx sIdx wm tm cat
  unfold EnrichLeagues.enrichCatalog
  rw [List.forall₂_map_right_iff, List.forall₂_same]
  intro c hc
  refine ⟨rfl, ?_⟩
  rw [List.forall₂_map_right_iff, List.forall₂_same]
  intro s hs
  refine ⟨rfl, ?_⟩
  rw [List.forall₂_map_right_iff, List.forall₂_same]
  intro L hL
  exact ⟨rfl, rfl⟩

end SportsDB
